import Mathlib

/-!
# Verification of the `config` language front end and decoder

A shallow embedding of the `config` repository (scanner, parser, decoder)
with theorems settling the frozen claims.  Go source files embedded:
`scanner.go`, `parser.go`, `node.go`, `decode.go` (with the token/littype
declarations).  Positions (`Pos`) are used by the code only for diagnostics
and are carried by no claim, so they are omitted from the embedding; error
*counts* and diagnostic *messages*, which claims do mention, are tracked.

Machine integers are modelled as `Int`/`Nat` with explicit wrapping or
clamping where Go overflows or `strconv` clamps.  Loops whose termination
Lean cannot see structurally take a fuel argument; a dedicated
"out of fuel" result marks exhaustion, and every theorem either supplies
enough fuel concretely or carries a fuel hypothesis.
-/

namespace Config

/-! ## Tokens (token.go, littype.go) -/

/-- Literal sub-types, mirroring `LitType` with constants
`StringLit, IntLit, FloatLit, BoolLit, DurationLit, SizeLit`. -/
inductive LitType where
  | string | int | float | bool | duration | size
deriving DecidableEq, Repr

/-- A scanner token together with its payload: the Go scanner exposes the
token kind in `sc.tok` and, for names and literals, the text in `sc.lit`
and the literal type in `sc.typ`. -/
inductive Tok where
  | eof
  | name (s : String)
  | literal (t : LitType) (s : String)
  | semi
  | comma
  | lbrace
  | rbrace
  | lbrack
  | rbrack
deriving DecidableEq, Repr

/-- Token kinds, as compared by the parser (`p.tok == _Name` etc.). -/
inductive TokKind where
  | eof | name | literal | semi | comma | lbrace | rbrace | lbrack | rbrack
deriving DecidableEq, Repr

def Tok.kind : Tok → TokKind
  | .eof => .eof
  | .name _ => .name
  | .literal _ _ => .literal
  | .semi => .semi
  | .comma => .comma
  | .lbrace => .lbrace
  | .rbrace => .rbrace
  | .lbrack => .lbrack
  | .rbrack => .rbrack

/-! ## Scanner (scanner.go)

The missing `source.go` (not under `src/`) provides `get`/`unget`/
`startLit`/`stopLit` over the byte stream; it is modelled here as a
`List Char` cursor: `get` consumes the head (end of input behaves as the
sentinel rune `-1` does in Go: every class test fails on it), `unget`
leaves a character unconsumed, and the literal text is the span of
consumed characters.  Scan errors only report through the error handler
and do not influence tokenisation, so they are not tracked. -/

/-- `isLetter` from scanner.go.  Go also accepts any `unicode.IsLetter`
rune; `Char.isAlpha` approximates that (ASCII letters), which is exact on
every input a claim mentions. -/
def isLetter (r : Char) : Bool :=
  ('a' ≤ r && r ≤ 'z') || ('A' ≤ r && r ≤ 'Z') || r = '_' || r.isAlpha

/-- `isDigit` from scanner.go. -/
def isDigit (r : Char) : Bool :=
  '0' ≤ r && r ≤ '9'

def isIdentChar (r : Char) : Bool := isLetter r || isDigit r

/-- The loop of `scanner.number`: the first character (a digit or `-`) was
already consumed by `next`; consume further digits, allowing one `.`
(a second `.` is a scan error and ends the literal there, the `.` put
back).  Returns (consumed characters, float flag, rest). -/
def scanNumber : List Char → Bool → List Char × Bool × List Char
  | [], f => ([], f, [])
  | c :: cs, f =>
    if isDigit c then
      let (l, f', r) := scanNumber cs f
      (c :: l, f', r)
    else if c = '.' then
      if f then
        -- "invalid point in float": error, break; the breaking '.' is unget
        ([], f, c :: cs)
      else
        let (l, f', r) := scanNumber cs true
        (c :: l, f', r)
    else ([], f, c :: cs)

/-- The loop of `scanner.string`, entered after the opening quote.
Returns the text between the delimiters (the stored literal strips the
surrounding pair via `lit[1:len(lit)-1]`) and the rest of the input.
A `\` consumes the next character; a `\"` does not terminate the string;
an unescaped newline is a scan error ending the string (the newline is
the stripped final character). -/
def scanString : List Char → List Char × List Char
  | [] => ([], [])
  | ['\\'] => (['\\'], [])
  | '\\' :: '"' :: ds =>
    let (l, r) := scanString ds
    ('\\' :: '"' :: l, r)
  | '\\' :: d :: ds =>
    -- the escaped character is re-examined by the loop
    let (l, r) := scanString (d :: ds)
    ('\\' :: l, r)
  | c :: cs =>
    if c = '"' then ([], cs)
    else if c = '\n' then ([], cs)
    else
      let (l, r) := scanString cs
      (c :: l, r)

/-- Whitespace predicate of `scanner.next`: space, tab, carriage return,
and newline only when no implicit terminator is pending. -/
def isSkippable (nlsemi : Bool) (r : Char) : Bool :=
  r = ' ' || r = '\t' || r = '\r' || (r = '\n' && !nlsemi)

/-- Drop a `#` comment: `next` consumes up to and including the newline. -/
def dropLine : List Char → List Char
  | [] => []
  | c :: cs => if c = '\n' then cs else dropLine cs

/-- `scanner.next`, producing one token, the nlsemi flag it leaves behind,
and the remaining input.  The `goto redo` loop (comments, unexpected
characters) always consumes input, so `fuel > input length` suffices. -/
def nextGo : Nat → Bool → List Char → Tok × Bool × List Char
  | 0, _, cs => (.eof, false, cs)
  | fuel+1, nlsemi, cs0 =>
    match (cs0.dropWhile (isSkippable nlsemi)) with
    | [] => (.eof, false, [])
    | c :: rest =>
      if c = '#' then
        nextGo fuel nlsemi (dropLine rest)
      else if isLetter c then
        -- scanner.ident
        (.name (String.mk (c :: rest.takeWhile isIdentChar)), true,
          rest.dropWhile isIdentChar)
      else if isDigit c || c = '-' then
        -- scanner.number followed by the duration/size suffix check
        let (numcs, isFloat, r1) := scanNumber rest false
        let lit := c :: numcs
        let typ := if isFloat then LitType.float else LitType.int
        match r1 with
        | [] => (.literal typ (String.mk lit), true, [])
        | u :: r2 =>
          if u = 's' || u = 'm' || u = 'h' then
            (.literal .duration (String.mk (lit ++ [u])), true, r2)
          else if u = 'B' then
            (.literal .size (String.mk (lit ++ [u])), true, r2)
          else if u = 'K' || u = 'M' || u = 'G' || u = 'T' then
            match r2 with
            | 'B' :: r3 => (.literal .size (String.mk (lit ++ [u, 'B'])), true, r3)
            -- not followed by B: the unit character was consumed by `get` and
            -- only the character after it is `unget`, so the K/M/G/T is dropped
            | _ => (.literal typ (String.mk lit), true, r2)
          else (.literal typ (String.mk lit), true, u :: r2)
      else if c = '\n' || c = ';' then (.semi, false, rest)
      else if c = ',' then (.comma, false, rest)
      else if c = '{' then (.lbrace, false, rest)
      else if c = '}' then (.rbrace, true, rest)
      else if c = '[' then (.lbrack, false, rest)
      else if c = ']' then (.rbrack, true, rest)
      else if c = '"' then
        let (content, r) := scanString rest
        (.literal .string (String.mk content), true, r)
      else
        -- "unexpected token %U": error reported, scanning resumes
        nextGo fuel nlsemi rest

/-- Repeated `next` until EOF (the EOF token itself is not kept: the
parser's model treats an empty token list as EOF). -/
def tokenizeGo : Nat → Bool → List Char → List Tok
  | 0, _, _ => []
  | fuel+1, nlsemi, cs =>
    match nextGo (cs.length + 1) nlsemi cs with
    | (.eof, _, _) => []
    | (t, nl, r) => t :: tokenizeGo fuel nl r

/-- The token stream of a source text.  `newScanner` starts with
`nlsemi = false`; every non-EOF token consumes at least one character, so
`length + 1` steps suffice. -/
def scanTokens (s : String) : List Tok :=
  tokenizeGo (s.toList.length + 1) false s.toList

example : scanTokens "1h30m" =
    [.literal .duration "1h", .literal .duration "30m"] := by decide

example : scanTokens "store files {}\n" =
    [.name "store", .name "files", .lbrace, .rbrace, .semi] := by decide

example : scanTokens "limit 50MB\n" =
    [.name "limit", .literal .size "50MB", .semi] := by decide

example : scanTokens "log \"a\\b\"\n" =
    [.name "log", .literal .string "a\\b", .semi] := by decide

/-! ## AST (node.go)

`name` nodes appear only as a parameter's name or label, so they carry a
plain string here.  A parameter is `(name, optional label, value)`; the
value is optional because `parser.param` can return with `n.Value` still
nil, and `parser.operand` returns nil on a syntax error.  Array items are
likewise optional because `parser.arr` appends `p.operand()` unchecked. -/

inductive Node where
  | lit (t : LitType) (v : String)
  | block (ps : List (String × Option String × Option Node))
  | array (items : List (Option Node))
deriving Repr

/-- A `param` node: name, optional label, operand. -/
abbrev ParamT := String × Option String × Option Node

/-! ## Parser (parser.go)

The parser state is the remaining token list (an empty list plays the
EOF token) plus the error count `errc`; every recorded error also goes
through the error handler, which the claims only consult for its count.
The `include` extension is not modelled: it opens files (I/O), and every
claim runs with includes disabled, under which `parse` never enters that
branch.  The shared `parser.list` helper is inlined at its two call
sites (block bodies and array bodies). -/

structure PState where
  toks : List Tok
  errc : Nat
deriving Repr

/-- The current token (`p.tok`); an exhausted list is EOF. -/
def peekT : List Tok → Tok
  | [] => .eof
  | t :: _ => t

/-- `p.next()`: the scanner keeps returning EOF at end of input. -/
def nextSt (st : PState) : PState :=
  { st with toks := st.toks.tail }

/-- `p.err` / `p.errAt`: count the error (the message goes to the handler). -/
def bumpErr (st : PState) : PState :=
  { st with errc := st.errc + 1 }

/-- `p.got(tok)`: consume the current token if its kind matches. -/
def gotTok (k : TokKind) (st : PState) : Bool × PState :=
  if (peekT st.toks).kind = k then (true, nextSt st) else (false, st)

/-- `p.want(tok)`: `got` or record "expected ..." and stay. -/
def wantTok (k : TokKind) (st : PState) : PState :=
  match gotTok k st with
  | (true, st') => st'
  | (false, st') => bumpErr st'

/-- The loop of `p.advance(follow...)`: skip tokens until one whose kind
is in `follow`, or EOF. -/
def advanceToks (follow : List TokKind) : List Tok → List Tok
  | [] => []
  | t :: ts => if t.kind ∈ follow then t :: ts else advanceToks follow ts

/-- `p.advance(follow...)`. -/
def advanceSt (follow : List TokKind) (st : PState) : PState :=
  { st with toks := advanceToks follow st.toks }

mutual

/-- `parser.param`.  Returns `none` exactly when the Go function returns
a nil `*param` (current token not a name). -/
def pParam : Nat → PState → Option ParamT × PState
  | 0, st => (none, st)
  | fuel+1, st =>
    match peekT st.toks with
    | .name nm =>
      let st := nextSt st
      match peekT st.toks with
      | .name lb =>
        let st := nextSt st
        if (peekT st.toks).kind = .semi then
          if lb = "true" || lb = "false" then
            -- reinterpret: no label, the identifier is the boolean value
            (some (nm, none, some (.lit .bool lb)), st)
          else
            (some (nm, some lb, none), st)
        else
          let (v, st) := pOperand fuel st
          (some (nm, some lb, v), st)
      | _ =>
        let (v, st) := pOperand fuel st
        (some (nm, none, v), st)
    | _ =>
      (none, advanceSt [.semi] (bumpErr st))

/-- `parser.operand`. -/
def pOperand : Nat → PState → Option Node × PState
  | 0, st => (none, st)
  | fuel+1, st =>
    match peekT st.toks with
    | .literal t v => (some (.lit t v), nextSt st)
    | .lbrace => pBlock fuel st
    | .lbrack => pArr fuel st
    | .name nm =>
      let st := nextSt st
      if nm = "true" || nm = "false" then
        (some (.lit .bool nm), st)
      else
        (none, advanceSt [.semi] (bumpErr st))
    | _ =>
      (none, advanceSt [.semi] (bumpErr st))

/-- `parser.block`. -/
def pBlock : Nat → PState → Option Node × PState
  | 0, st => (none, st)
  | fuel+1, st =>
    let st := wantTok .lbrace st
    let (ps, st) := pBlockItems fuel st
    (some (.block ps), st)

/-- `parser.list(_Semi, _Rbrace, ...)` with the block callback: a missing
name records "expected name" and advances to `}` or `;`; otherwise the
parsed parameter is appended (with a name token present, `param` never
returns nil, so the `none` arm is dead). -/
def pBlockItems : Nat → PState → List ParamT × PState
  | 0, st => ([], st)
  | fuel+1, st =>
    if (peekT st.toks).kind = .rbrace || (peekT st.toks).kind = .eof then
      ([], wantTok .rbrace st)
    else
      let (ps, st) :=
        if (peekT st.toks).kind ≠ .name then
          (([] : List ParamT), advanceSt [.rbrace, .semi] (bumpErr st))
        else
          match pParam fuel st with
          | (some pm, st') => ([pm], st')
          | (none, st') => ([], st')
      let (gotSep, st) := gotTok .semi st
      let st :=
        if !gotSep && (peekT st.toks).kind ≠ .rbrace then
          nextSt (bumpErr st)
        else st
      let (rest, st) := pBlockItems fuel st
      (ps ++ rest, st)

/-- `parser.arr`. -/
def pArr : Nat → PState → Option Node × PState
  | 0, st => (none, st)
  | fuel+1, st =>
    let st := wantTok .lbrack st
    let (items, st) := pArrItems fuel st
    (some (.array items), st)

/-- `parser.list(_Comma, _Rbrack, ...)` with the array callback, which
appends `p.operand()` even when it is nil. -/
def pArrItems : Nat → PState → List (Option Node) × PState
  | 0, st => ([], st)
  | fuel+1, st =>
    if (peekT st.toks).kind = .rbrack || (peekT st.toks).kind = .eof then
      ([], wantTok .rbrack st)
    else
      let (it, st) := pOperand fuel st
      let (gotSep, st) := gotTok .comma st
      let st :=
        if !gotSep && (peekT st.toks).kind ≠ .rbrack then
          nextSt (bumpErr st)
        else st
      let (rest, st) := pArrItems fuel st
      (it :: rest, st)

end

/-- The loop of `parser.parse` (includes disabled): skip separators,
append `p.param()` — a nil result included — until EOF. -/
def pTop : Nat → PState → List (Option ParamT) × PState
  | 0, st => ([], st)
  | fuel+1, st =>
    match (peekT st.toks).kind with
    | .eof => ([], st)
    | .semi => pTop fuel (nextSt st)
    | _ =>
      let (pm, st) := pParam fuel st
      let (rest, st) := pTop fuel st
      (pm :: rest, st)

/-- `parser.parse` before its error gate: the accumulated node sequence
and the final error count.  One fuel unit per recursive call: an input of
`n` tokens performs at most `2n + 1` nested calls. -/
def parseRaw (ts : List Tok) : List (Option ParamT) × Nat :=
  let (nn, st) := pTop (2 * ts.length + 2) { toks := ts, errc := 0 }
  (nn, st.errc)

/-- `parser.parse`: `(nil, "parser encountered N error(s)")` when any
error was recorded — the built sequence is dropped — else the sequence. -/
def parseGo (ts : List Tok) : Except Nat (List (Option ParamT)) :=
  let (nn, errc) := parseRaw ts
  if errc > 0 then .error errc else .ok nn

example : parseGo (scanTokens "flag true\n") =
    .ok [some ("flag", none, some (.lit .bool "true"))] := rfl

example : parseGo (scanTokens "store files\n") =
    .ok [some ("store", some "files", none)] := rfl

example : parseGo (scanTokens "store files \x7b\n type \"file\"\n\x7d\n") =
    .ok [some ("store", some "files",
      some (.block [("type", none, some (.lit .string "file"))]))] := rfl

example : parseGo (scanTokens "42\np 1\n") = .error 1 := rfl

example : parseRaw (scanTokens "42\np 1\n") =
    ([none, some ("p", none, some (.lit .int "1"))], 1) := rfl

/-! ## Reflective model of target types and values (decode.go)

Go's decoder drives `reflect` over an arbitrary target.  The embedding
gives the fragment of the reflect universe the decoder touches: the
scalar kinds of the coercion table, structs (a list of fields, each with
its Go name, its raw `config` tag, and its type), string-keyed maps (the
decoder creates map keys only from parameter names and labels, which are
strings), and slices.  `float32`/`float64` values keep the literal text:
`strconv.ParseFloat`'s bit-level semantics is floating point and is not
modelled — no claim concerns a float.  A map value distinguishes Go's
nil map (`none`) from an initialized one. -/

inductive Ty where
  | string | int | int8 | int16 | int32 | int64 | float32 | float64 | bool
  | struct (fields : List (String × String × Ty))
  | map (elem : Ty)
  | slice (elem : Ty)
deriving Repr

inductive Kind where
  | string | int | int8 | int16 | int32 | int64 | float32 | float64 | bool
  | struct | map | slice
deriving DecidableEq, Repr

def Ty.kind : Ty → Kind
  | .string => .string
  | .int => .int
  | .int8 => .int8
  | .int16 => .int16
  | .int32 => .int32
  | .int64 => .int64
  | .float32 => .float32
  | .float64 => .float64
  | .bool => .bool
  | .struct _ => .struct
  | .map _ => .map
  | .slice _ => .slice

/-- `reflect.Kind.String()`, as used in error messages. -/
def Kind.goString : Kind → String
  | .string => "string"
  | .int => "int"
  | .int8 => "int8"
  | .int16 => "int16"
  | .int32 => "int32"
  | .int64 => "int64"
  | .float32 => "float32"
  | .float64 => "float64"
  | .bool => "bool"
  | .struct => "struct"
  | .map => "map"
  | .slice => "slice"

def Ty.kindName (t : Ty) : String := t.kind.goString

inductive Value where
  | str (s : String)
  | int (n : Int)
  | float (text : String)
  | bool (b : Bool)
  | struct (fields : List Value)
  | map (entries : Option (List (String × Value)))
  | slice (items : List Value)
deriving Repr

mutual

/-- `reflect.New(rt).Elem()`: the zero value of a type.  Go's zero slice
is nil; nil and empty slices are not distinguished (nothing the decoder
or a claim does tells them apart). -/
def zeroValue : Ty → Value
  | .string => .str ""
  | .int | .int8 | .int16 | .int32 | .int64 => .int 0
  | .float32 | .float64 => .float "0"
  | .bool => .bool false
  | .struct fs => .struct (zeroFields fs)
  | .map _ => .map none
  | .slice _ => .slice []

/-- Zero values of a struct's field list. -/
def zeroFields : List (String × String × Ty) → List Value
  | [] => []
  | (_, _, t) :: fs => zeroValue t :: zeroFields fs

end

/-! ## Machine-integer helpers (strconv, time, and Go arithmetic) -/

/-- Two's-complement wrap-around of Go's `w`-bit signed arithmetic. -/
def wrapInt (w : Nat) (n : Int) : Int :=
  (n + 2 ^ (w - 1)) % 2 ^ w - 2 ^ (w - 1)

def digitsToNat (cs : List Char) : Nat :=
  cs.foldl (fun a c => a * 10 + (c.toNat - '0'.toNat)) 0

/-- Models `strconv.ParseInt(s, 10, bitSize)` of the Go standard library:
the returned value and an error flag.  A syntax error (empty text, bare
sign, a non-digit) yields 0; a range error yields the boundary of the
signed `bitSize` range (`ParseUint` clamps to the unsigned maximum, and
`ParseInt` then clamps to `2^(bitSize-1) - 1` or `-2^(bitSize-1)`). -/
def goParseInt (s : String) (bitSize : Nat) : Int × Bool :=
  let cutoff : Int := 2 ^ (bitSize - 1)
  match s.toList with
  | [] => (0, true)
  | c :: cs =>
    let (neg, ds) :=
      if c = '-' then (true, cs)
      else if c = '+' then (false, cs)
      else (false, c :: cs)
    if ds.isEmpty || !ds.all isDigit then (0, true)
    else
      let n : Int := (digitsToNat ds : Nat)
      if neg then
        if n > cutoff then (-cutoff, true) else (-n, false)
      else
        if n ≥ cutoff then (cutoff - 1, true) else (n, false)

/-- `time.ParseDuration`'s unit table. -/
def durUnits : List (String × Nat) :=
  [("ns", 1), ("us", 1000), ("µs", 1000), ("μs", 1000),
   ("ms", 1000000), ("s", 1000000000), ("m", 60000000000), ("h", 3600000000000)]

def maxInt64 : Nat := 2 ^ 63 - 1

/-- The component loop of `time.ParseDuration`: consume `<digits><unit>`
components, accumulating nanoseconds with int64-overflow errors.
Fractional components (`1.5s`) involve float64 arithmetic and are not
modelled — they are answered with an error here; no claim mentions one. -/
def parseDurGo : Nat → List Char → Nat → Except String Nat
  | 0, _, _ => .error "invalid duration"
  | _+1, [], d => .ok d
  | fuel+1, cs, d =>
    let v := cs.takeWhile isDigit
    let rest := cs.dropWhile isDigit
    if v.isEmpty then .error "invalid duration"
    else
      let vn := digitsToNat v
      if vn > maxInt64 then .error "invalid duration"
      else
        match rest with
        | '.' :: _ => .error "fractional duration (not modelled)"
        | _ =>
          let u := rest.takeWhile (fun c => !(isDigit c || c = '.'))
          let rest2 := rest.dropWhile (fun c => !(isDigit c || c = '.'))
          if u.isEmpty then .error "missing unit in duration"
          else
            match durUnits.lookup (String.mk u) with
            | none => .error "unknown unit in duration"
            | some unit =>
              if vn > maxInt64 / unit then .error "invalid duration"
              else
                let d' := d + vn * unit
                if d' > maxInt64 then .error "invalid duration"
                else parseDurGo fuel rest2 d'

/-- Models `time.ParseDuration` of the Go standard library (external to
the repository; `decodeLiteral` calls it for Duration literals):
an optional sign, then one or more `<digits><unit>` components summed in
nanoseconds, `"0"` alone allowed, an empty text refused.  Restricted as
`parseDurGo` describes. -/
def goParseDuration (s : String) : Except String Int :=
  let cs := s.toList
  let (neg, cs) :=
    match cs with
    | '-' :: t => (true, t)
    | '+' :: t => (false, t)
    | _ => (false, cs)
  if cs = ['0'] then .ok 0
  else if cs.isEmpty then .error "invalid duration"
  else
    match parseDurGo (cs.length + 1) cs 0 with
    | .error e => .error e
    | .ok d => .ok (if neg then -(d : Int) else (d : Int))

example : goParseDuration "1h30m" = .ok 5400000000000 := rfl
example : goParseDuration "1h" = .ok 3600000000000 := rfl
example : goParseDuration "10m" = .ok 600000000000 := rfl

/-! ## Decoder configuration and interpolation (decode.go) -/

/-- `ExpandFunc`. -/
abbrev ExpandFn := String → Except String String

/-- The decoder state a claim can observe: the expansion-provider registry
(`d.expands`; nil until an `Expand` option runs, `Envvars` registers the
prefix `"env"`) and the process environment backing `expandEnvvar`
(modelled as a total function — `os.Getenv` returns `""` for an unset
variable and never fails). -/
structure Decoder where
  expands : List (String × ExpandFn)
  env : String → String

/-- The `${...}`-span expansion of `Decoder.interpolate`, entered on an
unescaped `}` while interpolating: split the accumulated `expr` on its
first `:`; a `:` past position 0 selects a registered provider by prefix
(unregistered is a hard error) and passes it the rest; otherwise the
default environment provider receives the whole text. -/
def expandSpan (d : Decoder) (expr : List Char) : Except String (List Char) :=
  let sexpr := String.mk expr
  match expr.findIdx? (· = ':') with
  | some i =>
    if i > 0 then
      let pre := String.mk (expr.take i)
      match d.expands.lookup pre with
      | none => .error ("undefined variable expansion: " ++ pre)
      | some fn =>
        match fn (String.mk (expr.drop (i + 1))) with
        | .error e => .error e
        | .ok s => .ok s.toList
    else .ok (d.env sexpr).toList
  | none => .ok (d.env sexpr).toList

/-- `utf8.DecodeRune` over a byte list: an empty input is `(RuneError, 0)`;
an ASCII byte decodes to itself with width 1; a lead byte below `0xC2`
(a continuation byte or the overlong leads `0xC0`/`0xC1`) is
`(RuneError, 1)`; otherwise the 2-, 3- or 4-byte form is assembled,
with the narrowed second-byte accept ranges for leads `0xE0` (from
`0xA0`), `0xED` (to `0x9F`, excluding surrogates), `0xF0` (from `0x90`)
and `0xF4` (to `0x8F`, capping at `U+10FFFF`); a short or malformed
tail is `(RuneError, 1)`.  `RuneError` is `U+FFFD` = 65533. -/
def utf8DecodeRune : List Nat → Nat × Nat
  | [] => (65533, 0)
  | b0 :: rest =>
    if b0 < 128 then (b0, 1)
    else if b0 < 194 then (65533, 1)
    else if b0 < 224 then
      match rest with
      | b1 :: _ =>
        if 128 ≤ b1 ∧ b1 ≤ 191 then ((b0 % 32) * 64 + b1 % 64, 2)
        else (65533, 1)
      | [] => (65533, 1)
    else if b0 < 240 then
      match rest with
      | b1 :: b2 :: _ =>
        if (if b0 = 224 then 160 else 128) ≤ b1 ∧
            b1 ≤ (if b0 = 237 then 159 else 191) ∧
            128 ≤ b2 ∧ b2 ≤ 191 then
          ((b0 % 16) * 4096 + (b1 % 64) * 64 + b2 % 64, 3)
        else (65533, 1)
      | _ => (65533, 1)
    else if b0 < 245 then
      match rest with
      | b1 :: b2 :: b3 :: _ =>
        if (if b0 = 240 then 144 else 128) ≤ b1 ∧
            b1 ≤ (if b0 = 244 then 143 else 191) ∧
            128 ≤ b2 ∧ b2 ≤ 191 ∧ 128 ≤ b3 ∧ b3 ≤ 191 then
          ((b0 % 8) * 262144 + (b1 % 64) * 4096 + (b2 % 64) * 64 + b3 % 64, 4)
        else (65533, 1)
      | _ => (65533, 1)
    else (65533, 1)

/-- The UTF-8 encoding of one scalar value (`Char` excludes surrogates,
exactly the values Go writes back with `string(val)`). -/
def utf8EncodeChar (c : Char) : List Nat :=
  if c.toNat < 128 then [c.toNat]
  else if c.toNat < 2048 then [192 + c.toNat / 64, 128 + c.toNat % 64]
  else if c.toNat < 65536 then
    [224 + c.toNat / 4096, 128 + c.toNat / 64 % 64, 128 + c.toNat % 64]
  else
    [240 + c.toNat / 262144, 128 + c.toNat / 4096 % 64, 128 + c.toNat / 64 % 64,
      128 + c.toNat % 64]

/-- A Lean string as the byte list Go's `string` type holds. -/
def utf8Encode : List Char → List Nat
  | [] => []
  | c :: cs => utf8EncodeChar c ++ utf8Encode cs

/-- The rune read at the top of an `interpolate` iteration:
`r := rune(s[i])`, re-decoded through `utf8.DecodeRune` only when the
byte is `>= utf8.RuneSelf` (128). -/
def runeAt (b : Nat) (rest : List Nat) : Nat :=
  if 128 ≤ b then (utf8DecodeRune (b :: rest)).1 else b

/-- The width `i` advances by: `utf8.DecodeRune`'s size for a non-ASCII
byte, otherwise the PREVIOUS width `w0` — Go initialises `w := 1` once,
outside the loop, and never resets it, so after a multibyte rune every
following ASCII byte still advances by that rune's width, skipping the
bytes in between. -/
def widthAt (b : Nat) (rest : List Nat) (w0 : Nat) : Nat :=
  if 128 ≤ b then (utf8DecodeRune (b :: rest)).2 else w0

/-- `Decoder.interpolate`'s loop, one byte-indexed iteration at a time
over the UTF-8 bytes of the input; `w0` is the loop-carried rune width,
`val` and `expr` the two rune accumulators, `interp` the `interpolate`
flag.  Mirrored behaviours worth noting: the index advances by
`widthAt` (the stale-width behaviour above) before any rune is acted
on; a `\` is consumed without being copied and without shielding the
next character; `$` is special only when at least one provider is
registered and the raw byte at the advanced index is `{`; `expr` is
never reset, so it accumulates across multiple `${...}` spans; a span
still open at the end of the text is discarded.  `widthAt` of a
non-empty list is at least 1, so every step consumes at least one byte
and fuel beyond the byte count is never exhausted. -/
def interpolateGo (d : Decoder) : Nat → List Nat → Nat → Bool → List Char → List Char →
    Except String String
  | 0, _, _, _, val, _ => .ok (String.mk val)
  | _+1, [], _, _, val, _ => .ok (String.mk val)
  | fuel+1, b :: rest, w0, interp, val, expr =>
    if runeAt b rest = 92 then
      interpolateGo d fuel ((b :: rest).drop (widthAt b rest w0)) (widthAt b rest w0)
        interp val expr
    else if runeAt b rest = 36 ∧ d.expands.isEmpty = false ∧
        ((b :: rest).drop (widthAt b rest w0)).head? = some 123 then
      interpolateGo d fuel ((b :: rest).drop (widthAt b rest w0)).tail
        (widthAt b rest w0) true val expr
    else if runeAt b rest = 125 ∧ interp = true then
      match expandSpan d expr with
      | .error e => .error e
      | .ok repl =>
        interpolateGo d fuel ((b :: rest).drop (widthAt b rest w0)) (widthAt b rest w0)
          false (val ++ repl) expr
    else if interp then
      interpolateGo d fuel ((b :: rest).drop (widthAt b rest w0)) (widthAt b rest w0)
        interp val (expr ++ [Char.ofNat (runeAt b rest)])
    else
      interpolateGo d fuel ((b :: rest).drop (widthAt b rest w0)) (widthAt b rest w0)
        interp (val ++ [Char.ofNat (runeAt b rest)]) expr

/-- `Decoder.interpolate` entry point: the loop runs over the UTF-8
bytes of the text with the width initialised to 1. -/
def interpolate (d : Decoder) (s : String) : Except String String :=
  interpolateGo d ((utf8Encode s.toList).length + 1) (utf8Encode s.toList) 1 false [] []

/-- A decoder with no expansion provider registered and an empty
environment. -/
def noExpand : Decoder := ⟨[], fun _ => ""⟩

example : interpolate noExpand "a\\b" = .ok "ab" := rfl
-- 标 is U+6807, bytes [230, 160, 135]: the stale width 3 makes the
-- ASCII byte after it advance the index by 3, skipping the next byte
example : utf8DecodeRune [230, 160, 135, 97, 98] = (26631, 3) := rfl
example : interpolate noExpand "标ab" = .ok "标a" := rfl
example : interpolate noExpand "a-${env:X}-b" = .ok "a-${env:X}-b" := rfl
example :
    interpolate ⟨[("env", fun k => .ok (if k = "X" then "Y" else ""))], fun _ => ""⟩
      "a-${env:X}-b" = .ok "a-Y-b" := rfl

/-! ## Literal coercion (`Decoder.decodeLiteral`) -/

/-- Decode-time errors.  `DecodeError`'s `Pos` field is a diagnostic
position and is omitted like all positions. -/
inductive DErr where
  /-- `lit.Err`, `arr.Err` or `errors.New`: a message-only error. -/
  | msg (s : String)
  /-- A `DecodeError{Param, Label, Type, Field}`. -/
  | decodeErr (param : String) (label : String) (ty : Ty) (field : String)
  /-- A Go runtime panic (reflect misuse, index out of range); never
  reached by any claim's inputs. -/
  | crash (s : String)
  /-- Fuel exhaustion of the model, not a behaviour of the code. -/
  | fuel
deriving Repr

/-- The bit size `decodeLiteral` passes to `strconv.ParseInt` for each
integer kind: Go kind `int` is parsed with bit size 32 regardless of the
platform word size. -/
def intBitSize : Kind → Option Nat
  | .int => some 32
  | .int8 => some 8
  | .int16 => some 16
  | .int32 => some 32
  | .int64 => some 64
  | _ => none

/-- `siztab`: power-of-1024 scale per size unit. -/
def siztab : List (String × Int) :=
  [("B", 1), ("KB", 1024), ("MB", 1024 ^ 2), ("GB", 1024 ^ 3), ("TB", 1024 ^ 4)]

/-- The SizeLit arm of `decodeLiteral`: take the final character as the
unit, widening it to two characters when the one before it is `K`, `M`,
`G` or `T`; strip it from the value text; scale the parsed integer (the
`ParseInt` error is discarded) by the unit's factor with Go's wrapping
64-bit multiplication.  Go indexes `lit.Value[end-1]`, which panics when
the text has fewer than two characters — impossible for a
scanner-produced size literal (at least one number character plus its
unit). -/
def decodeSize (v : String) : Except DErr Value :=
  let cs := v.toList
  if cs.length < 2 then .error (.crash "index out of range")
  else
    let e := cs.length - 1
    let last := cs.getD e ' '
    let prev := cs.getD (e - 1) ' '
    let (unit, val) :=
      if prev = 'K' || prev = 'M' || prev = 'G' || prev = 'T' then
        (String.mk [prev, last], cs.take (e - 1))
      else
        (String.mk [last], cs.take e)
    match siztab.lookup unit with
    | none => .error (.msg ("unrecognized size " ++ unit))
    | some siz =>
      let i := (goParseInt (String.mk val) 64).1
      .ok (.int (wrapInt 64 (i * siz)))

/-- `Decoder.decodeLiteral`: typed coercion of a literal into a scalar
target kind.  Float values keep their text (see `Value.float`);
`booltab` maps any text other than `"true"` to `false`. -/
def decodeLiteral (d : Decoder) (rt : Ty) (t : LitType) (v : String) : Except DErr Value :=
  match t with
  | .string =>
    if rt.kind ≠ .string then .error (.msg ("cannot use string as " ++ rt.kindName))
    else
      match interpolate d v with
      | .error e => .error (.msg e)
      | .ok s => .ok (.str s)
  | .int =>
    match intBitSize rt.kind with
    | none => .error (.msg ("cannot use int as " ++ rt.kindName))
    | some bits => .ok (.int (goParseInt v bits).1)
  | .float =>
    if rt.kind = .float32 || rt.kind = .float64 then .ok (.float v)
    else .error (.msg ("cannot use float as " ++ rt.kindName))
  | .bool =>
    if rt.kind ≠ .bool then .error (.msg ("cannot use bool as " ++ rt.kindName))
    else .ok (.bool (v = "true"))
  | .duration =>
    if rt.kind ≠ .int64 then .error (.msg ("cannot use duration as " ++ rt.kindName))
    else
      match goParseDuration v with
      | .error e => .error (.msg e)
      | .ok n => .ok (.int n)
  | .size =>
    if rt.kind ≠ .int64 then .error (.msg ("cannot use size as " ++ rt.kindName))
    else decodeSize v

example : decodeLiteral noExpand .int64 .size "50MB" = .ok (.int 52428800) := rfl
example : decodeLiteral noExpand .int64 .duration "1h30m" =
    .ok (.int 5400000000000) := rfl

/-- `reflect.Value.Convert(el)`, as applied after `decodeLiteral`
succeeds: between integer kinds it truncates to the target width; every
other conversion the decoder performs is the identity (`ParseInt` has
already clamped integer literals into the target range, so the wraps
below are identities on the decoder's own values). -/
def convertVal (el : Ty) (v : Value) : Value :=
  match el, v with
  | .int, .int n => .int n
  | .int8, .int n => .int (wrapInt 8 n)
  | .int16, .int n => .int (wrapInt 16 n)
  | .int32, .int n => .int (wrapInt 32 n)
  | .int64, .int n => .int (wrapInt 64 n)
  | _, _ => v

/-! ## Field descriptors (`Decoder.loadFields`) -/

/-- Modelled from the spec: `foldFunc` — defined in a repository file that
is not under `src/` — builds, per field name, "a case/Unicode-insensitive
equality test used as a fallback when exact field-name matching fails"
(§3 field descriptor, §4.3 step 1, glossary).  Modelled as equality of
lowercased text. -/
def foldEq (s t : String) : Bool :=
  s.toList.map Char.toLower = t.toList.map Char.toLower

/-- `strings.Split(s, sep)` for a one-character separator (`cur` is the
reversed current segment). -/
def splitGo (sep : Char) : List Char → List Char → List String
  | cur, [] => [String.mk cur.reverse]
  | cur, c :: cs =>
    if c = sep then String.mk cur.reverse :: splitGo sep [] cs
    else splitGo sep (c :: cur) cs

/-- `strings.HasPrefix`. -/
def hasPrefixGo (s pre : String) : Bool :=
  pre.toList.isPrefixOf s.toList

/-- Tag processing of `Decoder.loadFields`: a `config` tag reads
`name[,opts]`; an empty tag, or an empty leading part, keeps the Go field
name; any opt with prefix `deprecated` marks the field deprecated and, in
the form `deprecated:alt` (a `:` past position 0), records `alt` as the
replacement; the opt `nogroup` suppresses label grouping.  Returns
`(name, deprecated, altname, nogroup)`. -/
def parseTag (goName tag : String) : String × Bool × String × Bool :=
  if tag = "" then (goName, false, "", false)
  else
    let parts := splitGo ',' [] tag.toList
    let nm0 := parts.headD ""
    let nm := if nm0 = "" then goName else nm0
    let opts := parts.tail
    let dep := opts.any (fun p => hasPrefixGo p "deprecated")
    let alt := (opts.filterMap (fun p =>
      if hasPrefixGo p "deprecated" then
        match p.toList.findIdx? (· = ':') with
        | some i => if i > 0 then some (String.mk (p.toList.drop (i + 1))) else none
        | none => none
      else none)).getLastD ""
    let ng := opts.any (fun p => p = "nogroup")
    (nm, dep, alt, ng)

example : parseTag "CleanupInterval" "cleanup_interval" =
    ("cleanup_interval", false, "", false) := rfl
example : parseTag "SSL" ",deprecated:tls" = ("SSL", true, "tls", false) := rfl
example : parseTag "Driver" ",nogroup" = ("Driver", false, "", true) := rfl

/-- A field descriptor (`field`): resolved name, the struct field index
the value reference points at, the field type, and the tag options. -/
structure FieldD where
  name : String
  index : Nat
  ty : Ty
  deprecated : Bool
  altname : String
  nogroup : Bool
deriving Repr

/-- Go map assignment `tab[name] = i`: a later assignment overwrites. -/
def mapSetNat (m : List (String × Nat)) (k : String) (v : Nat) : List (String × Nat) :=
  match m with
  | [] => [(k, v)]
  | (k', v') :: t => if k' = k then (k, v) :: t else (k', v') :: mapSetNat t k v

/-- The loop of `Decoder.loadFields` from struct index `i`: skip fields
named `-`; append a descriptor and record `tab[name] = i` otherwise.
Faithfully, `tab` stores the struct index while `get` will index the
descriptor slice with it (they differ once a field was excluded). -/
def loadFieldsGo : Nat → List (String × Nat) → List (String × String × Ty) →
    List FieldD × List (String × Nat)
  | _, tab, [] => ([], tab)
  | i, tab, (gn, tg, ty) :: fs =>
    let (nm, dep, alt, ng) := parseTag gn tg
    if nm = "-" then loadFieldsGo (i + 1) tab fs
    else
      let (arr, tab') := loadFieldsGo (i + 1) (mapSetNat tab nm i) fs
      (⟨nm, i, ty, dep, alt, ng⟩ :: arr, tab')

def loadFields (fs : List (String × String × Ty)) :
    List FieldD × List (String × Nat) :=
  loadFieldsGo 0 [] fs

/-- Result of `fields.get`. -/
inductive FieldLookup where
  | found (f : FieldD)
  | missing
  /-- `f.arr[i]` out of range: a Go panic (possible only when a field was
  excluded with `-`). -/
  | oob
deriving Repr

/-- `fields.get(name)`. -/
def fieldsGet (arr : List FieldD) (tab : List (String × Nat)) (nm : String) :
    FieldLookup :=
  match tab.lookup nm with
  | some i =>
    match arr[i]? with
    | some f => .found f
    | none => .oob
  | none => .missing

/-- The fold-comparator fallback scan of `doDecode` (first hit wins). -/
def foldScan (arr : List FieldD) (nm : String) : Option FieldD :=
  arr.find? (fun f => foldEq f.name nm)

/-- Field resolution at the head of `doDecode`: the exact `get` hit,
else the fold fallback (`some none` = parameter silently ignored);
`none` = the `arr[i]` panic of `fields.get`. -/
def resolveF (arr : List FieldD) (tab : List (String × Nat)) (nm : String) :
    Option (Option FieldD) :=
  match fieldsGet arr tab nm with
  | .found f => some (some f)
  | .oob => none
  | .missing => some (foldScan arr nm)

/-! ## The decoder proper (`Decoder.doDecode` and friends)

Each function returns its Go result together with the diagnostics the
call sent through the error handler (deprecation warnings).  Fuel is
structural; with fuel larger than the nesting depth of the value being
decoded it is never exhausted.

`mapSetV` is `reflect.Value.SetMapIndex` with a valid element (Go maps
are unordered; an association list in insertion order has the same key
set and lookups); `mapDelV` is `SetMapIndex` with the zero `Value`,
which deletes the key. -/

def mapSetV (m : List (String × Value)) (k : String) (v : Value) :
    List (String × Value) :=
  match m with
  | [] => [(k, v)]
  | (k', v') :: t => if k' = k then (k, v) :: t else (k', v') :: mapSetV t k v

def mapDelV (m : List (String × Value)) (k : String) : List (String × Value) :=
  match m with
  | [] => []
  | (k', v') :: t => if k' = k then t else (k', v') :: mapDelV t k

/-- The deprecation diagnostic of `doDecode` step 3. -/
def depMsg (pname altname : String) : String :=
  pname ++ " is deprecated" ++
    (if altname ≠ "" then " use " ++ altname ++ " instead" else "")

mutual

/-- `Decoder.doDecode(rv, p)`: `rv` is a struct value of type `rt`
(`loadFields` calls `rv.NumField()`, which panics on any other kind).
Resolution: exact name-table hit, else the fold fallback, else the
parameter is silently ignored.  Labelled parameters go to the field
itself treating the label as the next parameter name when the field is
`nogroup` (a non-struct field is a `DecodeError`), and into the
string-keyed map under the label otherwise (lazily initialized when nil;
a non-map field is a `DecodeError`). -/
def doDecodeF : Nat → Decoder → Ty → Value → ParamT →
    Except DErr Value × List String
  | 0, _, _, _, _ => (.error .fuel, [])
  | fuel+1, d, rt, rv, p =>
    match rt, rv with
    | .struct fts, .struct vals =>
      let (arr, tab) := loadFields fts
      match resolveF arr tab p.1 with
      | none => (.error (.crash "index out of range in fields.get"), [])
      | some none => (.ok (.struct vals), [])
      | some (some f) =>
        let diags := if f.deprecated then [depMsg p.1 f.altname] else []
        match vals[f.index]? with
        | none => (.error (.crash "reflect: Field index out of range"), diags)
        | some fval =>
          match p.2.1 with
          | some lb =>
            if f.nogroup then
              match f.ty with
              | .struct _ =>
                let (res, ds) := doDecodeF fuel d f.ty fval (lb, none, p.2.2)
                match res with
                | .error e => (.error e, diags ++ ds)
                | .ok v' => (.ok (.struct (vals.set f.index v')), diags ++ ds)
              | _ => (.error (.decodeErr p.1 lb f.ty f.name), diags)
            else
              match f.ty, fval with
              | .map elemTy, .map entries0 =>
                let entries := entries0.getD []
                let (res, ds) := decodeNodeF fuel d elemTy p.2.2
                match res with
                | .error _ => (.error (.decodeErr p.1 "" elemTy f.name), diags ++ ds)
                | .ok (some pv) =>
                  (.ok (.struct (vals.set f.index
                    (.map (some (mapSetV entries lb pv))))), diags ++ ds)
                | .ok none =>
                  (.ok (.struct (vals.set f.index
                    (.map (some (mapDelV entries lb))))), diags ++ ds)
              | .map _, _ => (.error (.crash "map value shape"), diags)
              | _, _ => (.error (.decodeErr p.1 lb f.ty f.name), diags)
          | none =>
            let (res, ds) := decodeNodeF fuel d f.ty p.2.2
            match res with
            | .error _ => (.error (.decodeErr p.1 "" f.ty f.name), diags ++ ds)
            | .ok (some pv) => (.ok (.struct (vals.set f.index pv)), diags ++ ds)
            | .ok none =>
              (.error (.crash "reflect: Set using zero Value"), diags ++ ds)
    | _, _ => (.error (.crash "reflect: NumField of non-struct"), [])

/-- The operand type-switch shared by `doDecode` and the block/array
loops: literal (converted on success), block, array; a nil node matches
no case, which the callers observe as `none`.  Errors are raw here;
`doDecode` wraps them into a `DecodeError`, the block and array loops
forward them as they are. -/
def decodeNodeF : Nat → Decoder → Ty → Option Node →
    Except DErr (Option Value) × List String
  | 0, _, _, _ => (.error .fuel, [])
  | fuel+1, d, el, v =>
    match v with
    | some (.lit t s) =>
      match decodeLiteral d el t s with
      | .error e => (.error e, [])
      | .ok pv => (.ok (some (convertVal el pv)), [])
    | some (.block ps) =>
      let (res, ds) := decodeBlockF fuel d el ps
      (res.map some, ds)
    | some (.array items) =>
      let (res, ds) := decodeArrayF fuel d el items
      (res.map some, ds)
    | none => (.ok none, [])

/-- `Decoder.decodeBlock`: a struct target decodes each inner parameter
into a fresh zero value; a string-keyed map target decodes each inner
parameter's value as the element type and inserts it under the inner
parameter's own name; anything else is an error. -/
def decodeBlockF : Nat → Decoder → Ty → List ParamT →
    Except DErr Value × List String
  | 0, _, _, _ => (.error .fuel, [])
  | fuel+1, d, rt, ps =>
    match rt with
    | .map el =>
      let (res, ds) := decodeBlockMapF fuel d el none [] ps
      (res.map (fun es => .map (some es)), ds)
    | .struct _ => decodeBlockStructF fuel d rt (zeroValue rt) ps
    | _ => (.error (.msg "can only decode block into struct or map"), [])

/-- The map loop of `decodeBlock`.  `pv0` models the `pv` variable
declared outside the loop: a parameter whose value is nil matches no
switch case and inserts the previous iteration's value (or, on the first
iteration, the zero `Value`, which deletes the key). -/
def decodeBlockMapF : Nat → Decoder → Ty → Option Value →
    List (String × Value) → List ParamT →
    Except DErr (List (String × Value)) × List String
  | 0, _, _, _, _, _ => (.error .fuel, [])
  | _+1, _, _, _, es, [] => (.ok es, [])
  | fuel+1, d, el, pv0, es, p :: ps =>
    match p.2.2 with
    | none =>
      let es' :=
        match pv0 with
        | some pv => mapSetV es p.1 pv
        | none => mapDelV es p.1
      decodeBlockMapF fuel d el pv0 es' ps
    | some _ =>
      let (res, ds) := decodeNodeF fuel d el p.2.2
      match res with
      | .error e => (.error e, ds)
      | .ok (some pv) =>
        let (res2, ds2) := decodeBlockMapF fuel d el (some pv) (mapSetV es p.1 pv) ps
        (res2, ds ++ ds2)
      | .ok none =>
        let (res2, ds2) := decodeBlockMapF fuel d el pv0 es ps
        (res2, ds ++ ds2)

/-- The struct loop of `decodeBlock`: thread the partially populated
value through `doDecode`, stopping at the first error. -/
def decodeBlockStructF : Nat → Decoder → Ty → Value → List ParamT →
    Except DErr Value × List String
  | 0, _, _, _, _ => (.error .fuel, [])
  | _+1, _, _, rv, [] => (.ok rv, [])
  | fuel+1, d, rt, rv, p :: ps =>
    let (res, ds) := doDecodeF fuel d rt rv p
    match res with
    | .error e => (.error e, ds)
    | .ok rv' =>
      let (res2, ds2) := decodeBlockStructF fuel d rt rv' ps
      (res2, ds ++ ds2)

/-- `Decoder.decodeArray`: the target must be a slice; elements decode
independently into fresh zero values. -/
def decodeArrayF : Nat → Decoder → Ty → List (Option Node) →
    Except DErr Value × List String
  | 0, _, _, _ => (.error .fuel, [])
  | fuel+1, d, rt, items =>
    match rt with
    | .slice el =>
      let (res, ds) := decodeArrayItemsF fuel d el items
      (res.map .slice, ds)
    | _ => (.error (.msg ("cannot use slice as " ++ rt.kindName)), [])

/-- The item loop of `decodeArray`: `val := reflect.New(el).Elem()` per
item; a nil item matches no switch case and appends that zero value. -/
def decodeArrayItemsF : Nat → Decoder → Ty → List (Option Node) →
    Except DErr (List Value) × List String
  | 0, _, _, _ => (.error .fuel, [])
  | _+1, _, _, [] => (.ok [], [])
  | fuel+1, d, el, it :: its =>
    let (res, ds) :=
      match it with
      | none => (Except.ok (zeroValue el), ([] : List String))
      | some _ =>
        let (r, ds) := decodeNodeF fuel d el it
        match r with
        | .error e => (.error e, ds)
        | .ok (some v) => (.ok v, ds)
        | .ok none => (.ok (zeroValue el), ds)
    match res with
    | .error e => (.error e, ds)
    | .ok v =>
      let (res2, ds2) := decodeArrayItemsF fuel d el its
      (res2.map (fun vs => v :: vs), ds ++ ds2)

end

/-- The node loop of `Decoder.Decode` after a successful parse: decode
each top-level parameter in order into the target value.  A nil element
(which only a failed parse produces, and a failed parse aborts `Decode`
first) would panic in Go when its name is read. -/
def decodeParamsF : Nat → Decoder → Ty → Value → List (Option ParamT) →
    Except DErr Value × List String
  | 0, _, _, _, _ => (.error .fuel, [])
  | _+1, _, _, rv, [] => (.ok rv, [])
  | fuel+1, d, rt, rv, p :: ps =>
    match p with
    | none => (.error (.crash "nil parameter"), [])
    | some pm =>
      let (res, ds) := doDecodeF fuel d rt rv pm
      match res with
      | .error e => (.error e, ds)
      | .ok rv' =>
        let (res2, ds2) := decodeParamsF fuel d rt rv' ps
        (res2, ds ++ ds2)

/-- `Decoder.Decode` end to end: scan and parse the source, abort with
the parse failure (the error count) if any error was recorded, else
decode every top-level parameter into the zero value of the target type.
The fuel is a generous bound on the AST depth (used only on concrete
inputs). -/
def DecodeSrc (d : Decoder) (rt : Ty) (src : String) :
    Except (Nat ⊕ DErr) Value × List String :=
  match parseGo (scanTokens src) with
  | .error n => (.error (.inl n), [])
  | .ok nn =>
    match decodeParamsF (4 * src.length + 16) d rt (zeroValue rt) nn with
    | (.error e, ds) => (.error (.inr e), ds)
    | (.ok v, ds) => (.ok v, ds)

example :
    DecodeSrc noExpand
      (.struct [("Auth", "", .map (.struct [("Addr", "", .string)]))])
      "auth internal \x7b\n\taddr \"a\"\n\x7d\nauth ldap \x7b\n\taddr \"b\"\n\x7d\n" =
    (.ok (.struct [.map (some
      [("internal", .struct [.str "a"]), ("ldap", .struct [.str "b"])])]), []) := rfl

example :
    DecodeSrc noExpand
      (.struct [("Store", ",nogroup",
        .struct [("Sftp", "", .struct [("Addr", "", .string)])])])
      "store sftp \x7b\n\taddr \"x\"\n\x7d\n" =
    (.ok (.struct [.struct [.struct [.str "x"]]]), []) := rfl

example :
    DecodeSrc noExpand (.struct [("A", "", .int64)]) "nope 1\nA 2\n" =
    (.ok (.struct [.int 2]), []) := rfl

example :
    DecodeSrc noExpand
      (.struct [("TLS", "", .struct [("CA", "", .string)]),
                ("SSL", ",deprecated:tls", .struct [("CA", "", .string)])])
      "ssl \x7b\n\tca \"crt\"\n\x7d\n" =
    (.ok (.struct [.struct [.str ""], .struct [.str "crt"]]),
     ["ssl is deprecated use tls instead"]) := rfl

example :
    DecodeSrc noExpand
      (.struct [("Drivers", "", .slice .string)])
      "drivers [\"docker\", \"qemu-x86_64\"]\n" =
    (.ok (.struct [.slice [.str "docker", .str "qemu-x86_64"]]), []) := rfl

example :
    DecodeSrc noExpand
      (.struct [("Timeout", "",
        .struct [("Read", "", .int64), ("Write", "", .int64)])])
      "timeout \x7b\n\tread 10m\n\twrite 10m\n\x7d\n" =
    (.ok (.struct [.struct [.int 600000000000, .int 600000000000]]), []) := rfl

/-! ## Support lemmas -/

theorem ule_toNat (a b : UInt32) : (a ≤ b) ↔ a.toNat ≤ b.toNat := Iff.rfl

theorem ult_toNat (a b : UInt32) : (a < b) ↔ a.toNat < b.toNat := Iff.rfl

theorem isDigit_char_class (c : Char) (h : isDigit c = true) :
    isLetter c = false ∧ (∀ b, isSkippable b c = false) ∧ c ≠ '#' ∧ c ≠ '.' ∧
      c ≠ '-' := by
  simp [isDigit, Char.le_def, ule_toNat, UInt32.ext_iff, UInt32.size,
    Char.ext_iff] at h
  refine ⟨?_, fun b => ?_, ?_, ?_, ?_⟩
  · simp [isLetter, Char.isAlpha, Char.isUpper, Char.isLower, Char.le_def,
      Char.lt_def, Char.ext_iff, ule_toNat, ult_toNat, UInt32.ext_iff,
      UInt32.size]
    omega
  · simp [isSkippable, Char.ext_iff, UInt32.ext_iff, UInt32.size]
    refine ⟨⟨⟨?_, ?_⟩, ?_⟩, ?_⟩ <;> intro hc <;> omega
  all_goals
    simp [Char.ext_iff, UInt32.ext_iff, UInt32.size]
    omega

/-- `scanner.number` consumes exactly a digit run when what follows is
neither a digit nor a point. -/
theorem scanNumber_digits (ds : List Char) (hd : ∀ c ∈ ds, isDigit c = true) :
    ∀ (u : Char) (r : List Char), isDigit u = false → u ≠ '.' → ∀ f,
      scanNumber (ds ++ u :: r) f = (ds, f, u :: r) := by
  induction ds with
  | nil =>
    intro u r hu hdot f
    simp [scanNumber, hu, hdot]
  | cons c cs ih =>
    intro u r hu hdot f
    have hc := hd c (by simp)
    simp [scanNumber, hc, ih (fun x hx => hd x (by simp [hx])) u r hu hdot f]

/-! ## Claim C1 -/

/-- C1 counterexample: the claim says the scanner produces the whole run
`1h30m` as a single Duration token; in fact it scans it as the two
Duration tokens `1h` and `30m` (the suffix check after `scanner.number`
consumes exactly one unit character and returns), and a parameter
`timeout 1h30m` therefore fails to parse (the second token is an
unexpected literal). -/
theorem c1_counterexample :
    scanTokens "1h30m" =
      [.literal .duration "1h", .literal .duration "30m"] ∧
    parseGo (scanTokens "timeout 1h30m\n") = .error 1 :=
  ⟨rfl, rfl⟩

/-- C1 (amended): the scanner produces a *single* number+unit pair
(units `s`, `m`, `h`, no intervening whitespace) as one Duration token —
a run of several pairs becomes one token per pair — and decoding a
Duration literal whose text is `1h30m` into an int64 target yields
exactly 5,400,000,000,000 nanoseconds. -/
theorem c1_single_pair_duration_token :
    (∀ (fuel : Nat) (nlsemi : Bool) (ds : List Char) (u : Char)
        (rest : List Char),
      ds ≠ [] → (∀ c ∈ ds, isDigit c = true) →
      (u = 's' ∨ u = 'm' ∨ u = 'h') →
      nextGo (fuel + 1) nlsemi (ds ++ u :: rest) =
        (.literal .duration (String.mk (ds ++ [u])), true, rest)) ∧
    (∀ d : Decoder,
      decodeLiteral d .int64 .duration "1h30m" = .ok (.int 5400000000000)) := by
  refine ⟨?_, fun d => rfl⟩
  intro fuel nlsemi ds u rest hne hd hu
  obtain ⟨c, cs, rfl⟩ : ∃ c cs, ds = c :: cs := by
    cases ds with
    | nil => exact absurd rfl hne
    | cons c cs => exact ⟨c, cs, rfl⟩
  have hc := hd c (by simp)
  obtain ⟨hlet, hskip, hhash, hdot, hminus⟩ := isDigit_char_class c hc
  have hu' : isDigit u = false ∧ u ≠ '.' := by
    rcases hu with rfl | rfl | rfl <;> exact ⟨rfl, by decide⟩
  have hnum := scanNumber_digits cs (fun x hx => hd x (by simp [hx]))
    u rest hu'.1 hu'.2 false
  have hus : (u = 's' || u = 'm' || u = 'h') = true := by
    rcases hu with rfl | rfl | rfl <;> rfl
  simp [nextGo, hskip nlsemi, hhash, hlet, hc, hnum, hus]

/-- Witness for `c1_single_pair_duration_token`. -/
theorem c1_single_pair_duration_token_witness :
    nextGo 1 false ['1', 'h'] = (.literal .duration "1h", true, []) ∧
    decodeLiteral noExpand .int64 .duration "1h30m" = .ok (.int 5400000000000) :=
  ⟨c1_single_pair_duration_token.1 0 false ['1'] 'h' [] (by decide)
      (by decide) (Or.inr (Or.inr rfl)),
    c1_single_pair_duration_token.2 noExpand⟩

/-! ## Claim C7 -/

/-- C7: after the parameter name, a second identifier is tentatively a
label; if a terminator follows and the identifier's text is `true` or
`false`, the parameter instead has no label and a synthesized Bool
literal as value; otherwise (here: a block follows) the identifier stays
as the label. -/
theorem c7_label_disambiguation :
    (∀ (fuel : Nat) (f v : String) (rest : List Tok) (errc : Nat),
      v = "true" ∨ v = "false" →
      pParam (fuel + 1) ⟨.name f :: .name v :: .semi :: rest, errc⟩ =
        (some (f, none, some (.lit .bool v)), ⟨.semi :: rest, errc⟩)) ∧
    (∀ (fuel : Nat) (s l : String) (rest : List Tok) (errc : Nat),
      pParam (fuel + 4) ⟨.name s :: .name l :: .lbrace :: .rbrace :: rest, errc⟩ =
        (some (s, some l, some (.block [])), ⟨rest, errc⟩)) := by
  constructor
  · intro fuel f v rest errc hv
    have hv' : (v = "true" || v = "false") = true := by
      rcases hv with rfl | rfl <;> rfl
    simp [pParam, peekT, nextSt, Tok.kind, hv']
  · intro fuel s l rest errc
    simp [pParam, pOperand, pBlock, pBlockItems, peekT, nextSt, Tok.kind,
      wantTok, gotTok]

/-- Witness for `c7_label_disambiguation`. -/
theorem c7_label_disambiguation_witness :
    pParam 1 ⟨[.name "flag", .name "true", .semi], 0⟩ =
      (some ("flag", none, some (.lit .bool "true")),
        ⟨[.semi], 0⟩) ∧
    pParam 4 ⟨[.name "store", .name "files", .lbrace, .rbrace], 0⟩ =
      (some ("store", some "files", some (.block [])), ⟨[], 0⟩) :=
  ⟨c7_label_disambiguation.1 0 "flag" "true" [] 0 (Or.inl rfl),
    c7_label_disambiguation.2 0 "store" "files" [] 0⟩

/-! ## Claim C9 -/

/-- C9: a parameter name followed by a second identifier that is not
`true`/`false` and then a terminator parses, without any recorded error,
to a parameter carrying that identifier as label and *no* value node;
`parse` reports success on such input. -/
theorem c9_label_without_value :
    (∀ (fuel : Nat) (nm lb : String) (rest : List Tok) (errc : Nat),
      lb ≠ "true" → lb ≠ "false" →
      pParam (fuel + 1) ⟨.name nm :: .name lb :: .semi :: rest, errc⟩ =
        (some (nm, some lb, none), ⟨.semi :: rest, errc⟩)) ∧
    parseGo (scanTokens "store files\n") =
      .ok [some ("store", some "files", none)] := by
  refine ⟨?_, rfl⟩
  intro fuel nm lb rest errc h1 h2
  simp [pParam, peekT, nextSt, Tok.kind, h1, h2]

/-- Witness for `c9_label_without_value`. -/
theorem c9_label_without_value_witness :
    pParam 1 ⟨[.name "store", .name "files", .semi], 0⟩ =
      (some ("store", some "files", none), ⟨[.semi], 0⟩) :=
  c9_label_without_value.1 0 "store" "files" [] 0 (by decide) (by decide)

/-! ## Claim C3 -/

/-- Tokens of `N` copies of the valid parameter `p 1` (terminated). -/
def validParamToks : Nat → List Tok
  | 0 => []
  | n + 1 => .name "p" :: .literal .int "1" :: .semi :: validParamToks n

/-- The node the parser builds for `p 1`. -/
def vParam : ParamT := ("p", none, some (.lit .int "1"))

/-- Tokens of a malformed parameter: a statement starting with a literal. -/
def badParamToks : List Tok := [.literal .int "42", .semi]

theorem validParamToks_length (n : Nat) :
    (validParamToks n).length = 3 * n := by
  induction n with
  | zero => rfl
  | succ n ih =>
    simp [validParamToks, ih]
    ring

/-- With fuel beyond twice the parameter count, the top-level loop turns
each `p 1` statement into its node without touching the error count. -/
theorem pTop_valid (N : Nat) : ∀ (fuel errc : Nat), 2 * N < fuel →
    pTop fuel ⟨validParamToks N, errc⟩ =
      (List.replicate N (some vParam), ⟨[], errc⟩) := by
  induction N with
  | zero =>
    intro fuel errc h
    match fuel, h with
    | fuel + 1, _ => simp [validParamToks, pTop, peekT, Tok.kind]
  | succ N ih =>
    intro fuel errc h
    match fuel, h with
    | k + 3, h =>
      have hk : 2 * N < k + 1 := by omega
      have h1 : pParam (k + 2)
          ⟨.name "p" :: .literal .int "1" :: .semi :: validParamToks N, errc⟩ =
          (some vParam, ⟨.semi :: validParamToks N, errc⟩) := by
        simp [pParam, pOperand, peekT, nextSt, Tok.kind, vParam]
      show pTop (k + 3)
          ⟨.name "p" :: .literal .int "1" :: .semi :: validParamToks N, errc⟩ = _
      rw [pTop]
      simp only [peekT, Tok.kind, h1]
      rw [pTop]
      simp only [peekT, Tok.kind, nextSt, List.tail_cons]
      rw [ih (k + 1) errc hk]
      simp [List.replicate]

/-- C3 counterexample: for the file `42` (one malformed parameter)
followed by the valid parameter `p 1`, `parse` returns the failure — a
nil node sequence — not a sequence containing the valid parameter, as
the claim states. -/
theorem c3_counterexample :
    parseGo (badParamToks ++ validParamToks 1) = .error 1 ∧
    parseGo (scanTokens "42\np 1\n") = .error 1 :=
  ⟨rfl, rfl⟩

/-- The top-level loop on the malformed statement followed by `N` valid
parameters, with any sufficient fuel. -/
theorem pTop_bad_then_valid (N : Nat) : ∀ (fuel errc : Nat),
    2 * N + 2 < fuel →
    pTop fuel ⟨badParamToks ++ validParamToks N, errc⟩ =
      (none :: List.replicate N (some vParam), ⟨[], errc + 1⟩) := by
  intro fuel errc h
  match fuel, h with
  | k + 2, h =>
    have hk : 2 * N < k := by omega
    simp [badParamToks, pTop, pParam, peekT, nextSt, Tok.kind, bumpErr,
      advanceSt, advanceToks, pTop_valid N k (errc + 1) hk]

/-- C3 (amended): an input of one malformed parameter followed by `N`
valid ones records exactly one syntax error, and the parser's internal
node sequence still holds all `N` valid parameter nodes (after a `nil`
placeholder for the malformed one); but `parse` then returns the
error-count failure with a `nil` sequence, not that internal sequence. -/
theorem c3_errors_recovered_but_sequence_dropped (N : Nat) :
    parseRaw (badParamToks ++ validParamToks N) =
      (none :: List.replicate N (some vParam), 1) ∧
    parseGo (badParamToks ++ validParamToks N) = .error 1 := by
  have hfuel : 2 * (badParamToks ++ validParamToks N).length + 2 = 6 * N + 6 := by
    simp [badParamToks, validParamToks_length]
    ring
  have h := pTop_bad_then_valid N (6 * N + 6) 0 (by omega)
  constructor
  · unfold parseRaw
    rw [hfuel, h]
  · unfold parseGo parseRaw
    rw [hfuel, h]
    rfl

/-- Witness for `c3_errors_recovered_but_sequence_dropped`. -/
theorem c3_errors_recovered_but_sequence_dropped_witness :
    parseRaw (badParamToks ++ validParamToks 2) =
      (none :: List.replicate 2 (some vParam), 1) ∧
    parseGo (badParamToks ++ validParamToks 2) = .error 1 :=
  c3_errors_recovered_but_sequence_dropped 2

/-! ## Claim C2 -/

/-- C2 counterexample: with no expansion provider registered, decoding
the string literal `a\b` (one backslash) yields `ab`, not the text
unchanged — `interpolate` drops every backslash even when interpolation
is otherwise inactive; and decoding `标ab` yields `标a`, not the text
unchanged — the rune width set by the multibyte 标 is never reset, so
the ASCII byte after it advances the byte index by 3 and the final `b`
is skipped. -/
theorem c2_counterexample :
    (decodeLiteral noExpand .string .string "a\\b" = .ok (.str "ab") ∧
      "ab" ≠ "a\\b") ∧
    decodeLiteral noExpand .string .string "标ab" = .ok (.str "标a") ∧
    "标a" ≠ "标ab" :=
  ⟨⟨rfl, by decide⟩, rfl, by decide⟩

/-- `runeAt` on an ASCII byte is the byte itself. -/
theorem runeAt_ascii (b : Nat) (rest : List Nat) (h : b < 128) :
    runeAt b rest = b := by
  unfold runeAt
  rw [if_neg (by omega)]

/-- `widthAt` on an ASCII byte keeps the carried width unchanged. -/
theorem widthAt_ascii (b : Nat) (rest : List Nat) (w0 : Nat) (h : b < 128) :
    widthAt b rest w0 = w0 := by
  unfold widthAt
  rw [if_neg (by omega)]

/-- An ASCII character encodes as its own single byte. -/
theorem utf8EncodeChar_ascii (c : Char) (h : c.toNat < 128) :
    utf8EncodeChar c = [c.toNat] := by
  unfold utf8EncodeChar
  rw [if_pos h]

/-- ASCII text encodes byte-for-character. -/
theorem utf8Encode_ascii : ∀ (cs : List Char), (∀ c ∈ cs, c.toNat < 128) →
    utf8Encode cs = cs.map Char.toNat
  | [], _ => rfl
  | c :: cs, h => by
    rw [utf8Encode, utf8EncodeChar_ascii c (h c (List.mem_cons_self c cs)),
      utf8Encode_ascii cs (fun x hx => h x (List.mem_cons_of_mem c hx))]
    rfl

/-- Filtering the backslash bytes out of a text's code points and then
re-reading characters is the character-level backslash filter. -/
theorem filter_map_toNat : ∀ (cs : List Char),
    ((cs.map Char.toNat).filter (fun b => b ≠ 92)).map Char.ofNat =
      cs.filter (fun c => c ≠ '\\')
  | [] => rfl
  | c :: cs => by
    by_cases hc : c = '\\'
    · subst hc
      simpa [show Char.toNat '\\' = 92 from rfl] using filter_map_toNat cs
    · have hn : c.toNat ≠ 92 := fun h => hc (by
        have h2 := congrArg Char.ofNat h
        rwa [Char.ofNat_toNat] at h2)
      simpa [hc, hn, Char.ofNat_toNat] using filter_map_toNat cs

/-- With no provider registered, the interpolation loop over ASCII bytes
copies its input minus every backslash byte: an ASCII byte leaves the
carried width untouched at its initial 1, and the `$` branch requires a
non-empty provider registry, so the `interpolate` flag never becomes
true. -/
theorem interpolateGo_noexpand (d : Decoder) (hd : d.expands = []) :
    ∀ (fuel : Nat) (bs : List Nat) (val expr : List Char),
      (∀ b ∈ bs, b < 128) → bs.length < fuel →
      interpolateGo d fuel bs 1 false val expr =
        .ok (String.mk (val ++ (bs.filter (fun b => b ≠ 92)).map Char.ofNat)) := by
  intro fuel
  induction fuel with
  | zero =>
    intro bs val expr _ h
    exact absurd h (Nat.not_lt_zero _)
  | succ n ih =>
    intro bs val expr hascii h
    match bs with
    | [] => simp [interpolateGo]
    | b :: rest =>
      have hb : b < 128 := hascii b (List.mem_cons_self b rest)
      have hrest : ∀ x ∈ rest, x < 128 :=
        fun x hx => hascii x (List.mem_cons_of_mem b hx)
      rw [interpolateGo, runeAt_ascii b rest hb, widthAt_ascii b rest 1 hb]
      simp only [List.drop_succ_cons, List.drop_zero]
      by_cases hc : b = 92
      · subst hc
        rw [if_pos rfl, ih rest val expr hrest (by simpa using h)]
        simp
      · rw [if_neg hc, if_neg (by simp [hd]), if_neg (by simp),
          ih rest (val ++ [Char.ofNat b]) expr hrest (by simpa using h)]
        simp [hc, Char.ofNat]

/-- C2 (amended): when no expansion provider is registered, decoding a
string literal whose text is ASCII into a string-kind target returns
the raw text with every backslash character removed; ASCII text with no
backslash — `${...}` spans included — passes through unchanged.  (On
text with a multibyte rune the stale rune width additionally skips
bytes, as the counterexample `标ab` shows.) -/
theorem c2_no_provider_backslash_stripped (d : Decoder) (hd : d.expands = [])
    (s : String) (hascii : ∀ c ∈ s.toList, c.toNat < 128) :
    decodeLiteral d .string .string s =
      .ok (.str (String.mk (s.toList.filter (fun c => c ≠ '\\')))) ∧
    ('\\' ∉ s.toList →
      decodeLiteral d .string .string s = .ok (.str s)) := by
  have hbs : utf8Encode s.toList = s.toList.map Char.toNat :=
    utf8Encode_ascii s.toList hascii
  have hlt : ∀ b ∈ s.toList.map Char.toNat, b < 128 := by
    intro b hb
    obtain ⟨c, hc, rfl⟩ := List.mem_map.mp hb
    exact hascii c hc
  have key : decodeLiteral d .string .string s =
      .ok (.str (String.mk (s.toList.filter (fun c => c ≠ '\\')))) := by
    have hfle : (s.toList.map Char.toNat).length < s.length + 1 := by
      rw [List.length_map]
      exact Nat.lt_succ_self _
    have h := interpolateGo_noexpand d hd (s.length + 1)
      (s.toList.map Char.toNat) [] [] hlt hfle
    rw [filter_map_toNat] at h
    simp only [List.nil_append] at h
    simp only [String.toList] at hbs h
    simp [decodeLiteral, Ty.kind, Ty.kindName, interpolate, hbs, h]
  refine ⟨key, fun hnb => ?_⟩
  rw [key]
  have hfe : s.toList.filter (fun c => c ≠ '\\') = s.toList := by
    rw [List.filter_eq_self]
    intro a ha
    simp only [ne_eq, decide_eq_true_eq]
    intro hab
    exact hnb (hab ▸ ha)
  rw [hfe]
  rfl

/-- Witness for `c2_no_provider_backslash_stripped`. -/
theorem c2_no_provider_backslash_stripped_witness :
    decodeLiteral noExpand .string .string "a-${env:X}-b" =
      .ok (.str "a-${env:X}-b") :=
  (c2_no_provider_backslash_stripped noExpand rfl "a-${env:X}-b"
    (by decide)).2 (by decide)

/-! ## Claim C10 -/

/-- C10: when an Int literal decodes into an integer field, the
`strconv.ParseInt` error is discarded — a value outside the target's
range decodes, without error, to the clamped boundary — and a target of
Go kind `int` uses bit size 32 (`decodeLiteral`'s `reflect.Int` case). -/
theorem c10_int_error_discarded_int_is_32bit :
    (∀ (d : Decoder) (s : String),
      decodeLiteral d .int .int s = .ok (.int (goParseInt s 32).1)) ∧
    (∀ (d : Decoder) (ds : List Char), ds ≠ [] →
      (∀ c ∈ ds, isDigit c = true) → 2 ^ 31 ≤ digitsToNat ds →
      decodeLiteral d .int .int (String.mk ds) = .ok (.int (2 ^ 31 - 1))) ∧
    (∀ d : Decoder, decodeLiteral d .int64 .int "9223372036854775808" =
      .ok (.int 9223372036854775807)) ∧
    (∀ d : Decoder, decodeLiteral d .int .int "2147483648" =
      .ok (.int 2147483647)) := by
  refine ⟨fun d s => rfl, ?_, fun d => rfl, fun d => rfl⟩
  intro d ds hne hd hge
  obtain ⟨c, cs, rfl⟩ : ∃ c cs, ds = c :: cs := by
    cases ds with
    | nil => exact absurd rfl hne
    | cons c cs => exact ⟨c, cs, rfl⟩
  have hc := hd c (by simp)
  have hminus : ¬c = '-' := by
    simp [isDigit, Char.le_def, ule_toNat, UInt32.ext_iff, UInt32.size,
      Char.ext_iff] at hc ⊢
    omega
  have hplus : ¬c = '+' := by
    simp [isDigit, Char.le_def, ule_toNat, UInt32.ext_iff, UInt32.size,
      Char.ext_iff] at hc ⊢
    omega
  have hall : (c :: cs).all isDigit = true := List.all_eq_true.mpr hd
  have step : decodeLiteral d .int .int (String.mk (c :: cs)) =
      .ok (.int (goParseInt (String.mk (c :: cs)) 32).1) := rfl
  rw [step]
  unfold goParseInt
  have htl : (String.mk (c :: cs)).toList = c :: cs := rfl
  rw [htl]
  simp only [hminus, hplus, if_false, List.isEmpty_cons, Bool.false_or, hall,
    Bool.not_true, Bool.or_false, Bool.false_eq_true, if_neg, ite_false]
  have hge' : ((2 : Int) ^ (32 - 1)) ≤ ((digitsToNat (c :: cs) : Nat) : Int) := by
    have h1 : ((2 : Int) ^ (32 - 1)) = ((2 ^ 31 : Nat) : Int) := by norm_num
    rw [h1]
    exact_mod_cast hge
  rw [if_pos hge']

/-- Witness for `c10_int_error_discarded_int_is_32bit`. -/
theorem c10_int_error_discarded_int_is_32bit_witness :
    decodeLiteral noExpand .int .int "2200000000" = .ok (.int (2 ^ 31 - 1)) :=
  c10_int_error_discarded_int_is_32bit.2.1 noExpand
    ['2', '2', '0', '0', '0', '0', '0', '0', '0', '0']
    (by decide) (by decide) (by decide)

/-! ## Claim C6 -/

/-- A digit is none of the two-character-unit lead characters. -/
theorem isDigit_not_kmgt (c : Char) (h : isDigit c = true) :
    (c = 'K' || c = 'M' || c = 'G' || c = 'T') = false := by
  simp [isDigit, Char.le_def, ule_toNat, UInt32.ext_iff, UInt32.size,
    Char.ext_iff] at h ⊢
  refine ⟨⟨⟨?_, ?_⟩, ?_⟩, ?_⟩ <;> omega

/-- `decodeSize` on `<digits><unit>` for the two unit shapes the code
extracts: the final character alone, or two characters when the one
before last is `K`/`M`/`G`/`T`. -/
theorem decodeSize_units (num : List Char) (hne : num ≠ [])
    (hdig : ∀ c ∈ num, isDigit c = true) :
    (∀ u : Char, decodeSize (String.mk (num ++ [u])) =
      (match siztab.lookup (String.mk [u]) with
       | none => .error (.msg ("unrecognized size " ++ String.mk [u]))
       | some siz =>
         .ok (.int (wrapInt 64 ((goParseInt (String.mk num) 64).1 * siz))))) ∧
    (∀ k u : Char, (k = 'K' || k = 'M' || k = 'G' || k = 'T') = true →
      decodeSize (String.mk (num ++ [k, u])) =
      (match siztab.lookup (String.mk [k, u]) with
       | none => .error (.msg ("unrecognized size " ++ String.mk [k, u]))
       | some siz =>
         .ok (.int (wrapInt 64 ((goParseInt (String.mk num) 64).1 * siz))))) := by
  have hlen : 0 < num.length := List.length_pos.mpr hne
  have hmem : ∀ d : Char, num.getD (num.length - 1) d ∈ num := by
    intro d
    rw [List.getD_eq_getElem num d (by omega)]
    exact List.getElem_mem _
  constructor
  · intro u
    unfold decodeSize
    have htl : (String.mk (num ++ [u])).toList = num ++ [u] := rfl
    rw [htl]
    rw [if_neg (by simp; omega)]
    have he : (num ++ [u]).length - 1 = num.length := by simp
    have hlast : (num ++ [u]).getD num.length ' ' = u := by
      rw [List.getD_append_right num [u] ' ' num.length (Nat.le_refl _)]
      simp
    have hprev : (num ++ [u]).getD (num.length - 1) ' ' =
        num.getD (num.length - 1) ' ' := by
      rw [List.getD_append num [u] ' ' (num.length - 1) (by omega)]
    have hkm := isDigit_not_kmgt _ (hdig _ (hmem ' '))
    simp only [he, hlast, hprev, hkm, Bool.false_eq_true, if_false,
      List.take_left]
  · intro k u hk
    unfold decodeSize
    have htl : (String.mk (num ++ [k, u])).toList = num ++ [k, u] := rfl
    rw [htl]
    rw [if_neg (by simp)]
    have he : (num ++ [k, u]).length - 1 = num.length + 1 := by simp
    have hlast : (num ++ [k, u]).getD (num.length + 1) ' ' = u := by
      rw [List.getD_append_right num [k, u] ' ' (num.length + 1) (by omega)]
      simp
    have hprev : (num ++ [k, u]).getD num.length ' ' = k := by
      rw [List.getD_append_right num [k, u] ' ' num.length (Nat.le_refl _)]
      simp
    simp only [he, Nat.add_sub_cancel, hlast, hprev, hk, if_true,
      List.take_left]

/-- C6: a Size literal `<digits><unit>` with unit `B`, `KB`, `MB`, `GB`
or `TB` decoded into an int64 target yields the parsed integer times the
unit's power-of-1024 scale (with Go's wrapping 64-bit multiplication,
the identity whenever the product is in range); `50MB` yields exactly
52428800; and a literal whose extracted unit is not in `siztab` is a
decode error. -/
theorem c6_size_scale_table :
    (∀ (d : Decoder) (num unitChars : List Char) (scale : Int),
      num ≠ [] → (∀ c ∈ num, isDigit c = true) →
      (unitChars = ['B'] ∨
        ∃ k, (k = 'K' || k = 'M' || k = 'G' || k = 'T') = true ∧
          unitChars = [k, 'B']) →
      siztab.lookup (String.mk unitChars) = some scale →
      decodeLiteral d .int64 .size (String.mk (num ++ unitChars)) =
        .ok (.int (wrapInt 64 ((goParseInt (String.mk num) 64).1 * scale)))) ∧
    (∀ (d : Decoder) (num : List Char) (u : Char),
      num ≠ [] → (∀ c ∈ num, isDigit c = true) →
      siztab.lookup (String.mk [u]) = none →
      decodeLiteral d .int64 .size (String.mk (num ++ [u])) =
        .error (.msg ("unrecognized size " ++ String.mk [u]))) ∧
    (∀ d : Decoder,
      decodeLiteral d .int64 .size "50MB" = .ok (.int 52428800)) := by
  refine ⟨?_, ?_, fun d => rfl⟩
  · intro d num unitChars scale hne hdig hshape hlook
    have hsz : decodeLiteral d .int64 .size (String.mk (num ++ unitChars)) =
        decodeSize (String.mk (num ++ unitChars)) := rfl
    rw [hsz]
    rcases hshape with rfl | ⟨k, hk, rfl⟩
    · rw [(decodeSize_units num hne hdig).1 'B', hlook]
    · rw [(decodeSize_units num hne hdig).2 k 'B' hk, hlook]
  · intro d num u hne hdig hlook
    have hsz : decodeLiteral d .int64 .size (String.mk (num ++ [u])) =
        decodeSize (String.mk (num ++ [u])) := rfl
    rw [hsz, (decodeSize_units num hne hdig).1 u, hlook]

/-- Witness for `c6_size_scale_table`. -/
theorem c6_size_scale_table_witness :
    decodeLiteral noExpand .int64 .size "50MB" =
      .ok (.int (wrapInt 64 ((goParseInt "50" 64).1 * 1048576))) ∧
    decodeLiteral noExpand .int64 .size "50K" =
      .error (.msg "unrecognized size K") :=
  ⟨c6_size_scale_table.1 noExpand ['5', '0'] ['M', 'B'] 1048576 (by decide)
      (by decide) (Or.inr ⟨'M', rfl, rfl⟩) rfl,
    c6_size_scale_table.2.1 noExpand ['5', '0'] 'K' (by decide) (by decide) rfl⟩

/-! ## Claim C8 -/

/-- C8: a parameter whose name resolves to no field — neither via the
exact name table nor via any field's fold comparator — is silently
ignored: `doDecode` succeeds, leaves the target untouched and emits no
diagnostic. -/
theorem c8_unknown_name_ignored (fuel : Nat) (d : Decoder)
    (fts : List (String × String × Ty)) (vals : List Value) (p : ParamT)
    (h : resolveF (loadFields fts).1 (loadFields fts).2 p.1 = some none) :
    doDecodeF (fuel + 1) d (.struct fts) (.struct vals) p =
      (.ok (.struct vals), []) := by
  rw [doDecodeF]
  rcases hlf : loadFields fts with ⟨arr, tab⟩
  rw [hlf] at h
  simp only [hlf]
  simp [h]

/-- Witness for `c8_unknown_name_ignored`: the name `nope` matches the
lone field `A` neither exactly nor case-insensitively; the other field
keeps its decoded value. -/
theorem c8_unknown_name_ignored_witness :
    doDecodeF 1 noExpand (.struct [("A", "", .int64)]) (.struct [.int 2])
      ("nope", none, some (.lit .int "1")) = (.ok (.struct [.int 2]), []) :=
  c8_unknown_name_ignored 0 noExpand [("A", "", .int64)] [.int 2]
    ("nope", none, some (.lit .int "1")) rfl

/-! ## Claim C5 -/

/-- C5: a labelled parameter whose resolved field is marked `nogroup`
recurses into the field with the label as the parameter name one level
down (the result written back into the field); when the field's type is
not record-shaped, it is a type-mismatch `DecodeError` instead. -/
theorem c5_nogroup_label_recursion (fuel : Nat) (d : Decoder)
    (fts : List (String × String × Ty)) (vals : List Value)
    (nm lb : String) (val : Option Node) (f : FieldD) (fval : Value)
    (hres : resolveF (loadFields fts).1 (loadFields fts).2 nm = some (some f))
    (hng : f.nogroup = true) (hdep : f.deprecated = false)
    (hidx : vals[f.index]? = some fval) :
    doDecodeF (fuel + 1) d (.struct fts) (.struct vals) (nm, some lb, val) =
      (if f.ty.kind = .struct then
        match doDecodeF fuel d f.ty fval (lb, none, val) with
        | (.error e, ds) => (.error e, ds)
        | (.ok v', ds) => (.ok (.struct (vals.set f.index v')), ds)
      else (.error (.decodeErr nm lb f.ty f.name), [])) := by
  rw [doDecodeF]
  rcases hlf : loadFields fts with ⟨arr, tab⟩
  rw [hlf] at hres
  simp only [hlf]
  cases hft : f.ty with
  | struct fts' =>
    simp only [hres, hdep, hidx, hng, hft, Ty.kind]
    simp only [← hft]
    cases hrec : doDecodeF fuel d f.ty fval (lb, none, val) with
    | mk res ds =>
      cases res <;> simp [hft]
  | _ =>
    simp [hres, hdep, hidx, hng, hft, Ty.kind]

/-- Witness for `c5_nogroup_label_recursion`: `store sftp { addr "x" }`
with `nogroup` on `Store` populates `Store.Sftp.Addr` (the label `sftp`
selects the nested field), and a `nogroup` field of non-struct type is a
`DecodeError`. -/
theorem c5_nogroup_label_recursion_witness :
    doDecodeF 8 noExpand
      (.struct [("Store", ",nogroup",
        .struct [("Sftp", "", .struct [("Addr", "", .string)])])])
      (.struct [.struct [.struct [.str ""]]])
      ("store", some "sftp",
        some (.block [("addr", none, some (.lit .string "x"))])) =
      (.ok (.struct [.struct [.struct [.str "x"]]]), []) ∧
    doDecodeF 1 noExpand (.struct [("A", ",nogroup", .string)])
      (.struct [.str ""]) ("A", some "x", some (.lit .string "y")) =
      (.error (.decodeErr "A" "x" .string "A"), []) := by
  constructor
  · rw [c5_nogroup_label_recursion 7 noExpand
      [("Store", ",nogroup", .struct [("Sftp", "", .struct [("Addr", "", .string)])])]
      [.struct [.struct [.str ""]]] "store" "sftp"
      (some (.block [("addr", none, some (.lit .string "x"))]))
      ⟨"Store", 0, .struct [("Sftp", "", .struct [("Addr", "", .string)])],
        false, "", true⟩
      (.struct [.struct [.str ""]]) rfl rfl rfl rfl]
    rfl
  · rw [c5_nogroup_label_recursion 0 noExpand [("A", ",nogroup", .string)]
      [.str ""] "A" "x" (some (.lit .string "y"))
      ⟨"A", 0, .string, false, "", true⟩ (.str "") rfl rfl rfl rfl]
    rfl

/-! ## Claim C4 -/

theorem find?_append {α : Type} (l₁ l₂ : List α) (p : α → Bool) :
    (l₁ ++ l₂).find? p = ((l₁.find? p).orElse fun _ => l₂.find? p) := by
  induction l₁ with
  | nil => simp
  | cons x xs ih => by_cases hx : p x <;> simp [List.find?, hx, ih]

theorem set_of_getElem? {α : Type} (l : List α) (i : Nat) (a : α)
    (h : l[i]? = some a) : l.set i a = l := by
  induction l generalizing i with
  | nil => simp at h
  | cons x xs ih =>
    cases i with
    | zero => simp_all
    | succ n => simp_all

/-- `SetMapIndex` lookup: the written key reads back, others unchanged. -/
theorem lookup_mapSetV (m : List (String × Value)) (k l : String) (v : Value) :
    (mapSetV m k v).lookup l = if l = k then some v else m.lookup l := by
  induction m with
  | nil =>
    by_cases hl : l = k
    · simp [mapSetV, List.lookup, hl]
    · simp [mapSetV, List.lookup, hl, beq_eq_false_iff_ne.mpr hl]
  | cons p t ih =>
    obtain ⟨k', v'⟩ := p
    by_cases hk : k' = k
    · subst hk
      by_cases hl : l = k'
      · simp [mapSetV, List.lookup, hl]
      · simp [mapSetV, List.lookup, hl, beq_eq_false_iff_ne.mpr hl]
    · by_cases hl : l = k'
      · have hlk : ¬l = k := fun h => hk (hl.symm.trans h)
        simp [mapSetV, hk, List.lookup, hl, hlk]
      · simp [mapSetV, hk, List.lookup, hl, beq_eq_false_iff_ne.mpr hl, ih]

/-- Lookup after folding `SetMapIndex` over (label, value) writes: the
last write to a label wins; unwritten labels fall back to the initial
entries. -/
theorem lookup_foldl_mapSetV (dv : String × Node → Value) :
    ∀ (pairs : List (String × Node)) (es : List (String × Value))
      (l : String),
      ((pairs.foldl (fun m pr => mapSetV m pr.1 (dv pr)) es).lookup l) =
        (match pairs.reverse.find? (fun pr => pr.1 == l) with
         | some pr => some (dv pr)
         | none => es.lookup l) := by
  intro pairs
  induction pairs with
  | nil => simp
  | cons pr t ih =>
    intro es l
    simp only [List.foldl_cons, List.reverse_cons]
    rw [ih, find?_append]
    cases hf : t.reverse.find? (fun pr => pr.1 == l) with
    | some q => rfl
    | none =>
      simp only [Option.none_orElse]
      by_cases hl : pr.1 = l
      · have hb : (pr.1 == l) = true := beq_iff_eq.mpr hl
        rw [lookup_mapSetV, if_pos hl.symm]
        simp [List.find?, hb]
      · have hb : (pr.1 == l) = false := beq_eq_false_iff_ne.mpr hl
        have hlp : ¬l = pr.1 := fun h => hl h.symm
        rw [lookup_mapSetV, if_neg hlp]
        simp [List.find?, hb]

/-- One `doDecode` call on a labelled parameter resolving to a
non-nogroup string-keyed map field: the map is created only when nil and
the decoded operand is stored under the label. -/
theorem doDecodeF_map_label_step (f1 : Nat) (d : Decoder)
    (fts : List (String × String × Ty)) (nm : String) (f : FieldD)
    (elemTy : Ty)
    (hres : resolveF (loadFields fts).1 (loadFields fts).2 nm = some (some f))
    (hng : f.nogroup = false) (hdep : f.deprecated = false)
    (hty : f.ty = .map elemTy)
    (vals : List Value) (lb : String) (op : Node)
    (m0 : Option (List (String × Value)))
    (hv : vals[f.index]? = some (.map m0)) (v : Value)
    (hdecode : decodeNodeF f1 d elemTy (some op) = (.ok (some v), [])) :
    doDecodeF (f1 + 1) d (.struct fts) (.struct vals) (nm, some lb, some op) =
      (.ok (.struct (vals.set f.index
        (.map (some (mapSetV (m0.getD []) lb v))))), []) := by
  rw [doDecodeF]
  rcases hlf : loadFields fts with ⟨arr, tab⟩
  rw [hlf] at hres
  simp only [hlf, hres, hdep, hv, hng, hty, Bool.false_eq_true, if_false]
  simp [hdecode]

/-- Folding `doDecode` over labelled parameters that all share one
map-field name: every operand decodes independently into the element
type and lands in the map under its label. -/
theorem decodeParamsF_label_grouping_loop (d : Decoder)
    (fts : List (String × String × Ty)) (nm : String) (f : FieldD)
    (elemTy : Ty)
    (hres : resolveF (loadFields fts).1 (loadFields fts).2 nm = some (some f))
    (hng : f.nogroup = false) (hdep : f.deprecated = false)
    (hty : f.ty = .map elemTy)
    (dv : String × Node → Value) (g0 : Nat) :
    ∀ (pairs : List (String × Node)) (fuel : Nat) (vals : List Value)
      (es : List (String × Value)),
      (∀ pr ∈ pairs, ∀ g, g0 ≤ g →
        decodeNodeF g d elemTy (some pr.2) = (.ok (some (dv pr)), [])) →
      vals[f.index]? = some (.map (some es)) →
      g0 + pairs.length ≤ fuel →
      decodeParamsF (fuel + 1) d (.struct fts) (.struct vals)
        (pairs.map (fun pr => some (nm, some pr.1, some pr.2))) =
        (.ok (.struct (vals.set f.index (.map (some
          (pairs.foldl (fun m pr => mapSetV m pr.1 (dv pr)) es))))), []) := by
  intro pairs
  induction pairs with
  | nil =>
    intro fuel vals es hdec hv hfuel
    simp only [List.map_nil, List.foldl_nil]
    rw [set_of_getElem? vals f.index _ hv]
    rw [decodeParamsF]
  | cons pr t ih =>
    intro fuel vals es hdec hv hfuel
    obtain ⟨f1, rfl⟩ : ∃ f1, fuel = f1 + 1 :=
      ⟨fuel - 1, by simp at hfuel; omega⟩
    have hlt : f.index < vals.length := by
      rcases List.getElem?_eq_some.mp hv with ⟨hlt, _⟩
      exact hlt
    simp only [List.map_cons]
    rw [decodeParamsF]
    rw [doDecodeF_map_label_step f1 d fts nm f elemTy hres hng hdep hty
      vals pr.1 pr.2 (some es) hv (dv pr)
      (hdec pr (by simp) f1 (by simp at hfuel; omega))]
    dsimp only [Option.getD_some]
    rw [ih f1 (vals.set f.index (.map (some (mapSetV es pr.1 (dv pr)))))
      (mapSetV es pr.1 (dv pr))
      (fun q hq g hg => hdec q (by simp [hq]) g hg)
      (List.getElem?_set_self hlt)
      (by simp at hfuel ⊢; omega)]
    simp [List.set_set]

/-- C4: labelled parameters sharing a name bound to a string-keyed,
non-nogroup map field: the map is lazily created only when nil, each
parameter's operand decodes independently into the element type and is
stored under its label; starting from an unset map the key set equals
the label set and on duplicate labels the last write wins. -/
theorem c4_label_grouping (d : Decoder)
    (fts : List (String × String × Ty)) (nm : String) (f : FieldD)
    (elemTy : Ty)
    (hres : resolveF (loadFields fts).1 (loadFields fts).2 nm = some (some f))
    (hng : f.nogroup = false) (hdep : f.deprecated = false)
    (hty : f.ty = .map elemTy)
    (dv : String × Node → Value) (g0 : Nat)
    (pr0 : String × Node) (prs : List (String × Node))
    (fuel : Nat) (vals : List Value) (m0 : Option (List (String × Value)))
    (hdec : ∀ pr ∈ pr0 :: prs, ∀ g, g0 ≤ g →
      decodeNodeF g d elemTy (some pr.2) = (.ok (some (dv pr)), []))
    (hv : vals[f.index]? = some (.map m0))
    (hfuel : g0 + prs.length + 1 ≤ fuel) :
    (decodeParamsF (fuel + 1) d (.struct fts) (.struct vals)
        ((pr0 :: prs).map (fun pr => some (nm, some pr.1, some pr.2))) =
      (.ok (.struct (vals.set f.index (.map (some
        ((pr0 :: prs).foldl (fun m pr => mapSetV m pr.1 (dv pr))
          (m0.getD [])))))), [])) ∧
    (∀ l, (((pr0 :: prs).foldl (fun m pr => mapSetV m pr.1 (dv pr))
        ([] : List (String × Value))).lookup l) =
      ((pr0 :: prs).reverse.find? (fun pr => pr.1 == l)).map dv) ∧
    (∀ l, ((((pr0 :: prs).foldl (fun m pr => mapSetV m pr.1 (dv pr))
        ([] : List (String × Value))).lookup l).isSome ↔
      l ∈ (pr0 :: prs).map Prod.fst)) := by
  refine ⟨?_, ?_, ?_⟩
  · obtain ⟨f1, rfl⟩ : ∃ f1, fuel = f1 + 1 := ⟨fuel - 1, by omega⟩
    have hlt : f.index < vals.length := by
      rcases List.getElem?_eq_some.mp hv with ⟨hlt, _⟩
      exact hlt
    simp only [List.map_cons]
    rw [decodeParamsF]
    rw [doDecodeF_map_label_step f1 d fts nm f elemTy hres hng hdep hty
      vals pr0.1 pr0.2 m0 hv (dv pr0)
      (hdec pr0 (by simp) f1 (by omega))]
    dsimp only []
    rw [decodeParamsF_label_grouping_loop d fts nm f elemTy hres hng hdep
      hty dv g0 prs f1
      (vals.set f.index (.map (some (mapSetV (m0.getD []) pr0.1 (dv pr0)))))
      (mapSetV (m0.getD []) pr0.1 (dv pr0))
      (fun q hq g hg => hdec q (by simp [hq]) g hg)
      (List.getElem?_set_self hlt)
      (by omega)]
    simp [List.set_set]
  · intro l
    rw [lookup_foldl_mapSetV]
    cases (pr0 :: prs).reverse.find? (fun pr => pr.1 == l) <;> simp
  · intro l
    rw [lookup_foldl_mapSetV]
    cases hf : (pr0 :: prs).reverse.find? (fun pr => pr.1 == l) with
    | some q =>
      have hq := List.find?_some hf
      have hmem := List.mem_reverse.mp (List.mem_of_find?_eq_some hf)
      simp only [beq_iff_eq] at hq
      simp only [Option.isSome_some, true_iff]
      exact hq ▸ List.mem_map_of_mem Prod.fst hmem
    | none =>
      simp only [List.lookup_nil, Option.isSome_none, Bool.false_eq_true,
        false_iff]
      intro hmem
      obtain ⟨q, hq, rfl⟩ := List.mem_map.mp hmem
      have := List.find?_eq_none.mp hf q (List.mem_reverse.mpr hq)
      simp at this

/-- Witness for `c4_label_grouping`: two parameters `auth a ...` and
`auth b ...` with distinct labels populate both keys of the map field
(resolved case-insensitively to `Auth`). -/
theorem c4_label_grouping_witness :
    decodeParamsF 4 noExpand (.struct [("Auth", "", .map .string)])
      (.struct [.map none])
      [some ("auth", some "a", some (.lit .string "x")),
       some ("auth", some "b", some (.lit .string "y"))] =
      (.ok (.struct [.map (some [("a", .str "x"), ("b", .str "y")])]), []) := by
  have h := (c4_label_grouping noExpand [("Auth", "", .map .string)] "auth"
    ⟨"Auth", 0, .map .string, false, "", false⟩ .string rfl rfl rfl rfl
    (fun pr => .str (if pr.1 = "a" then "x" else "y")) 1
    ("a", .lit .string "x") [("b", .lit .string "y")]
    3 [.map none] none
    (by
      intro pr hpr g hg
      obtain ⟨g', rfl⟩ : ∃ g', g = g' + 1 := ⟨g - 1, by omega⟩
      simp only [List.mem_cons, List.not_mem_nil, or_false] at hpr
      rcases hpr with h | h
      · subst h
        rfl
      · subst h
        rfl)
    rfl (by simp)).1
  simpa using h

end Config
